import Mathlib

/-
  Verification of the DeathKnell Rule Engine surface (MockRuleEngine.h).

  The repository ships only the test subclass `MockRuleEngine`, which exposes
  the protected extraction and assembly members of `RuleEngine` and declares
  the mock's own configuration members together with their constructor
  defaults.  The bodies of the `RuleEngine` extraction and assembly methods
  are not part of the repository snapshot, so those bodies are modelled from
  the specification; the configuration members, their initial values and the
  `SetMaxSize` mutator are taken directly from MockRuleEngine.h.
-/

namespace NetworkMonitor

/-- DPI record (`DpiMsgLR`): a read-only superset of optional string
attributes, one per field family.  `none` models an absent attribute. -/
structure DpiMsgLR where
  login : Option String
  domain : Option String
  url : Option String
  destHost : Option String
  command : Option String
  sender : Option String
  recipient : Option String
  subject : Option String
  version : Option String
  session : Option String
  path : Option String
  filename : Option String
deriving Repr, DecidableEq

/-- The record with every attribute absent. -/
def emptyMsg : DpiMsgLR :=
  ⟨none, none, none, none, none, none, none, none, none, none, none, none⟩

/-- Model of `IndexedFieldPairs` — `std::map<unsigned int, std::pair<std::string, std::string>>`
modelled as a key-sorted association list. -/
abbrev IndexedFieldPairs := List (Nat × (String × String))

/-- Ordered insert-or-assign, the effect of `map[k] = v` on a key-sorted
association list. -/
def mapInsert : IndexedFieldPairs → Nat → (String × String) → IndexedFieldPairs
  | [], k, v => [(k, v)]
  | (k₁, v₁) :: rest, k, v =>
    if k < k₁ then (k, v) :: (k₁, v₁) :: rest
    else if k = k₁ then (k, v) :: rest
    else (k₁, v₁) :: mapInsert rest k v

/-- The keys of an indexed field collection, in storage order. -/
def keysOf (m : IndexedFieldPairs) : List Nat := m.map Prod.fst

/-- An optional attribute is usable when it is present and non-empty. -/
def presentNonEmpty : Option String → Bool
  | some s => !(s == "")
  | none => false

/-- Modelled from the spec: the shared body of the twelve single-field
extractors (`RuleEngine::Get...Field`, bodies not in the repository
snapshot).  If the attribute is present and non-empty it inserts one
(name, value) pair at `nextField` and returns `nextField + 1`; otherwise
it returns `nextField` with the collection untouched. -/
def getFieldPair (name : String) (attr : Option String) (nextField : Nat)
    (formattedFieldData : IndexedFieldPairs) : Nat × IndexedFieldPairs :=
  match attr with
  | some v =>
    if v == "" then (nextField, formattedFieldData)
    else (nextField + 1, mapInsert formattedFieldData nextField (name, v))
  | none => (nextField, formattedFieldData)

/-- Identifiers for the twelve field families. -/
inductive FieldId where
  | login | domain | url | destHost | command | sender
  | recipient | subject | version | session | path | filename
deriving Repr, DecidableEq

/-- The syslog key under which each field family is emitted. -/
def fieldName : FieldId → String
  | .login => "login"
  | .domain => "domain"
  | .url => "url"
  | .destHost => "desthost"
  | .command => "command"
  | .sender => "sender"
  | .recipient => "recipient"
  | .subject => "subject"
  | .version => "version"
  | .session => "session"
  | .path => "path"
  | .filename => "filename"

/-- The DPI-record attribute read by each field family. -/
def fieldAttr : FieldId → DpiMsgLR → Option String
  | .login => DpiMsgLR.login
  | .domain => DpiMsgLR.domain
  | .url => DpiMsgLR.url
  | .destHost => DpiMsgLR.destHost
  | .command => DpiMsgLR.command
  | .sender => DpiMsgLR.sender
  | .recipient => DpiMsgLR.recipient
  | .subject => DpiMsgLR.subject
  | .version => DpiMsgLR.version
  | .session => DpiMsgLR.session
  | .path => DpiMsgLR.path
  | .filename => DpiMsgLR.filename

/-- One single-field extractor, dispatched by field identifier. -/
def applyExtractor (fid : FieldId) (nextField : Nat) (dpiMsg : DpiMsgLR)
    (formattedFieldData : IndexedFieldPairs) : Nat × IndexedFieldPairs :=
  getFieldPair (fieldName fid) (fieldAttr fid dpiMsg) nextField formattedFieldData

/-- Model of `RuleEngine::GetLoginField` (body modelled from the spec). -/
def GetLoginField (nextField : Nat) (dpiMsg : DpiMsgLR)
    (ffd : IndexedFieldPairs) : Nat × IndexedFieldPairs :=
  applyExtractor .login nextField dpiMsg ffd

/-- Model of `RuleEngine::GetDomainField` (body modelled from the spec). -/
def GetDomainField (nextField : Nat) (dpiMsg : DpiMsgLR)
    (ffd : IndexedFieldPairs) : Nat × IndexedFieldPairs :=
  applyExtractor .domain nextField dpiMsg ffd

/-- Model of `RuleEngine::GetUrlField` (body modelled from the spec). -/
def GetUrlField (nextField : Nat) (dpiMsg : DpiMsgLR)
    (ffd : IndexedFieldPairs) : Nat × IndexedFieldPairs :=
  applyExtractor .url nextField dpiMsg ffd

/-- Model of `RuleEngine::GetDestHostField` (body modelled from the spec). -/
def GetDestHostField (nextField : Nat) (dpiMsg : DpiMsgLR)
    (ffd : IndexedFieldPairs) : Nat × IndexedFieldPairs :=
  applyExtractor .destHost nextField dpiMsg ffd

/-- Model of `RuleEngine::GetCommandField` (body modelled from the spec). -/
def GetCommandField (nextField : Nat) (dpiMsg : DpiMsgLR)
    (ffd : IndexedFieldPairs) : Nat × IndexedFieldPairs :=
  applyExtractor .command nextField dpiMsg ffd

/-- Model of `RuleEngine::GetSenderField` (body modelled from the spec). -/
def GetSenderField (nextField : Nat) (dpiMsg : DpiMsgLR)
    (ffd : IndexedFieldPairs) : Nat × IndexedFieldPairs :=
  applyExtractor .sender nextField dpiMsg ffd

/-- Model of `RuleEngine::GetRecipientField` (body modelled from the spec). -/
def GetRecipientField (nextField : Nat) (dpiMsg : DpiMsgLR)
    (ffd : IndexedFieldPairs) : Nat × IndexedFieldPairs :=
  applyExtractor .recipient nextField dpiMsg ffd

/-- Model of `RuleEngine::GetSubjectField` (body modelled from the spec). -/
def GetSubjectField (nextField : Nat) (dpiMsg : DpiMsgLR)
    (ffd : IndexedFieldPairs) : Nat × IndexedFieldPairs :=
  applyExtractor .subject nextField dpiMsg ffd

/-- Model of `RuleEngine::GetVersionField` (body modelled from the spec). -/
def GetVersionField (nextField : Nat) (dpiMsg : DpiMsgLR)
    (ffd : IndexedFieldPairs) : Nat × IndexedFieldPairs :=
  applyExtractor .version nextField dpiMsg ffd

/-- Model of `RuleEngine::GetSessionField` (body modelled from the spec). -/
def GetSessionField (nextField : Nat) (dpiMsg : DpiMsgLR)
    (ffd : IndexedFieldPairs) : Nat × IndexedFieldPairs :=
  applyExtractor .session nextField dpiMsg ffd

/-- Model of `RuleEngine::GetPathField` (body modelled from the spec). -/
def GetPathField (nextField : Nat) (dpiMsg : DpiMsgLR)
    (ffd : IndexedFieldPairs) : Nat × IndexedFieldPairs :=
  applyExtractor .path nextField dpiMsg ffd

/-- Model of `RuleEngine::GetFilenameField` (body modelled from the spec). -/
def GetFilenameField (nextField : Nat) (dpiMsg : DpiMsgLR)
    (ffd : IndexedFieldPairs) : Nat × IndexedFieldPairs :=
  applyExtractor .filename nextField dpiMsg ffd

/-- Does the collection already carry a pair under the given field name? -/
def hasFieldNamed (ffd : IndexedFieldPairs) (name : String) : Bool :=
  ffd.any (fun p => p.2.1 == name)

/-- Modelled from the spec: an extractor step that skips a field family whose
name is already present in the collection (spec §9: treat duplicate supply as
skip-if-already-present). -/
def applyIfAbsent (fid : FieldId) (nextField : Nat) (dpiMsg : DpiMsgLR)
    (ffd : IndexedFieldPairs) : Nat × IndexedFieldPairs :=
  if hasFieldNamed ffd (fieldName fid) then (nextField, ffd)
  else applyExtractor fid nextField dpiMsg ffd

/-- Runs a sequence of extractor steps, threading the next free index and
the collection through the pass. -/
def runPass (step : FieldId → Nat → DpiMsgLR → IndexedFieldPairs → Nat × IndexedFieldPairs) :
    List FieldId → Nat → DpiMsgLR → IndexedFieldPairs → Nat × IndexedFieldPairs
  | [], nextField, _, ffd => (nextField, ffd)
  | fid :: rest, nextField, dpiMsg, ffd =>
    let r := step fid nextField dpiMsg ffd
    runPass step rest r.1 dpiMsg r.2

/-- Modelled from the spec: the application-specific extraction order.  The
rule table keyed by application type is not in the repository snapshot, so
the pass is modelled as the full family list in the documented order. -/
def appFieldOrder : List FieldId :=
  [.login, .domain, .url, .destHost, .command, .sender,
   .recipient, .subject, .version, .session, .path, .filename]

/-- Modelled from the spec: the fixed SIEM-required field subset (its exact
membership is not in the repository snapshot). -/
def siemRequiredOrder : List FieldId :=
  [.login, .domain, .url, .destHost]

/-- Model of `RuleEngine::GetApplicationSpecificFieldPairs` (body modelled from the
spec): dispatches through the single-field extractors from the given start
index, skipping families already present, and returns the final next free
index together with the updated collection. -/
def GetApplicationSpecificFieldPairs (nextField : Nat) (dpiMsg : DpiMsgLR)
    (formattedFieldData : IndexedFieldPairs) : Nat × IndexedFieldPairs :=
  runPass applyIfAbsent appFieldOrder nextField dpiMsg formattedFieldData

/-- Model of `RuleEngine::GetSiemRequiredFieldPairs` (body modelled from the spec):
always runs the fixed SIEM-required subset from origin 0 and returns the
next free index together with the updated collection. -/
def GetSiemRequiredFieldPairs (dpiMsg : DpiMsgLR)
    (formattedFieldData : IndexedFieldPairs) : Nat × IndexedFieldPairs :=
  runPass applyExtractor siemRequiredOrder 0 dpiMsg formattedFieldData

/-- Concatenation of a list of strings. -/
def strConcat : List String → String
  | [] => ""
  | s :: rest => s ++ strConcat rest

/-- Model of `RuleEngine::GetNextDataPair` (body modelled from the spec): renders one
dynamic pair as `name=value` preceded by a separating space. -/
def GetNextDataPair (p : String × String) : String :=
  " " ++ p.1 ++ "=" ++ p.2

/-- Model of `RuleEngine::GetStaticInfo` (body modelled from the spec): renders every
pair with index below `dynamicStart` into the static message header. -/
def GetStaticInfo (formattedFieldData : IndexedFieldPairs)
    (dynamicStart : Nat) : String :=
  strConcat ((formattedFieldData.filter (fun p => decide (p.1 < dynamicStart))).map
    (fun p => p.2.1 ++ "=" ++ p.2.2 ++ " "))

/-- The rendered texts of the dynamic pairs (index at or above
`dynamicStart`), in key order. -/
def dynamicTexts (formattedFieldData : IndexedFieldPairs)
    (dynamicStart : Nat) : List String :=
  (formattedFieldData.filter (fun p => decide (dynamicStart ≤ p.1))).map
    (fun p => GetNextDataPair p.2)

/-- Modelled from the spec: the greedy continuation loop of the message
assembler.  Dynamic pair texts are appended one at a time to the current
message; when the current message already carries a pair and the next text
would push it past `maxSize`, the current message is closed and a new one is
started from the static prefix, receiving that text whole. -/
def appendPairs (staticInfo : String) (maxSize : Nat) :
    List String → String → Bool → List String
  | [], cur, _ => [cur]
  | p :: rest, cur, hasPair =>
    if hasPair && decide (maxSize < cur.length + p.length) then
      cur :: appendPairs staticInfo maxSize rest (staticInfo ++ p) true
    else
      appendPairs staticInfo maxSize rest (cur ++ p) true

/-- Model of `RuleEngine::GetSyslogMessages` (body modelled from the spec): fails
without touching the output sequence when `dynamicStart` exceeds the number
of stored pairs; otherwise appends the assembled, length-bounded messages to
the output sequence and succeeds.  `maxSyslogMsgSize` stands for the
engine's `mMaxSyslogMsgSize` member. -/
def GetSyslogMessages (formattedFieldData : IndexedFieldPairs)
    (messages : List String) (dynamicStart : Nat)
    (maxSyslogMsgSize : Nat) : Bool × List String :=
  if formattedFieldData.length < dynamicStart then (false, messages)
  else
    let staticInfo := GetStaticInfo formattedFieldData dynamicStart
    (true, messages ++
      appendPairs staticInfo maxSyslogMsgSize
        (dynamicTexts formattedFieldData dynamicStart) staticInfo false)

/-- Model of `RuleEngine::GetSiemSyslogMessage` (body modelled from the spec): runs
SIEM-required extraction on a fresh collection, then application-specific
extraction for fields not already present, uses the phase boundary as
`dynamicStart`, and returns the assembled message sequence with no failure
flag. -/
def GetSiemSyslogMessage (dpiMsg : DpiMsgLR) (maxSyslogMsgSize : Nat) :
    List String :=
  let siem := GetSiemRequiredFieldPairs dpiMsg []
  let dynamicStart := siem.1
  let app := GetApplicationSpecificFieldPairs dynamicStart dpiMsg siem.2
  (GetSyslogMessages app.2 [] dynamicStart maxSyslogMsgSize).2

/-- The MockRuleEngine configuration state: the mock's own members
(MockRuleEngine.h lines 128-135) plus the inherited `mMaxSyslogMsgSize`
member of `RuleEngine` (declared outside the snapshot) that `SetMaxSize`
writes and message assembly reads. -/
structure MockRuleEngine where
  mMaxSyslogMsgSize : Nat
  mSiemMode : Bool
  mSyslogEnabled : Bool
  mMaxLineLength : Nat
  mScriptsDir : String
  mStatsQueueName : String
  mDpiRcvrQueue : String
  mDpiMsgQueueSize : Int
  mSiemDebugMode : Bool
deriving Repr, DecidableEq

/-- The constructor arguments of `MockRuleEngine` that are forwarded to the
`RuleEngine` base (the `ConfSlave` handle is external state and carries no
configuration read by the accessors). -/
structure CtorArgs where
  name : String
  option : Int
  facility : Int
  priority : Int
  master : Bool
  threadNumber : Nat
deriving Repr, DecidableEq

/-- The `MockRuleEngine` constructor: every mock configuration member is
initialized to the literal default from the initializer list in
MockRuleEngine.h; `baseMaxSyslogMsgSize` stands for whatever value the
`RuleEngine` base constructor (outside the snapshot) gives
`mMaxSyslogMsgSize`. -/
def mkMockRuleEngine (_args : CtorArgs) (baseMaxSyslogMsgSize : Nat) :
    MockRuleEngine :=
  { mMaxSyslogMsgSize := baseMaxSyslogMsgSize
    mSiemMode := false
    mSyslogEnabled := true
    mMaxLineLength := 2048
    mScriptsDir := "../scripts"
    mStatsQueueName := "ipc:///tmp/statsAccumulatorQ.ipc"
    mDpiRcvrQueue := "ipc:///tmp/dpilrmsgtest.ipc"
    mDpiMsgQueueSize := 1000
    mSiemDebugMode := false }

/-- Model of `MockRuleEngine::SetMaxSize`: writes the inherited `mMaxSyslogMsgSize`. -/
def SetMaxSize (e : MockRuleEngine) (max : Nat) : MockRuleEngine :=
  { e with mMaxSyslogMsgSize := max }

/-- Model of `MockRuleEngine::SiemModeEnabled`. -/
def SiemModeEnabled (e : MockRuleEngine) : Bool := e.mSiemMode

/-- Model of `MockRuleEngine::SiemDebugModeEnabled`. -/
def SiemDebugModeEnabled (e : MockRuleEngine) : Bool := e.mSiemDebugMode

/-- Model of `MockRuleEngine::SyslogEnabled`. -/
def SyslogEnabled (e : MockRuleEngine) : Bool := e.mSyslogEnabled

/-- Model of `MockRuleEngine::MaxLineLength`. -/
def MaxLineLength (e : MockRuleEngine) : Nat := e.mMaxLineLength

/-- Model of `MockRuleEngine::GetScriptsDir`. -/
def GetScriptsDir (e : MockRuleEngine) : String := e.mScriptsDir

/-- Model of `MockRuleEngine::GetStatsAccQueue`. -/
def GetStatsAccQueue (e : MockRuleEngine) : String := e.mStatsQueueName

/-- Model of `MockRuleEngine::GetDpiRcvrQueue`. -/
def GetDpiRcvrQueue (e : MockRuleEngine) : String := e.mDpiRcvrQueue

/-- Model of `MockRuleEngine::GetDpiMsgQueueSize`. -/
def GetDpiMsgQueueSize (e : MockRuleEngine) : Int := e.mDpiMsgQueueSize

/-! ### Supporting lemmas -/

theorem mapInsert_fresh (ffd : IndexedFieldPairs) (n : Nat) (v : String × String)
    (h : ∀ k ∈ keysOf ffd, k < n) : mapInsert ffd n v = ffd ++ [(n, v)] := by
  induction ffd with
  | nil => rfl
  | cons hd tl ih =>
    obtain ⟨k₁, v₁⟩ := hd
    have hk₁ : k₁ < n := h k₁ (by simp [keysOf])
    have htl : ∀ k ∈ keysOf tl, k < n := by
      intro k hk
      exact h k (by simp [keysOf] at hk ⊢; exact Or.inr hk)
    simp only [mapInsert]
    rw [if_neg (by omega), if_neg (by omega), ih htl]
    simp

/-- Contract of a single-field extractor, for claim checking: starting from a
collection whose keys all lie below `nextField`, a present non-empty
attribute appends exactly one pair at `nextField` and bumps the index, and
an absent or empty attribute leaves both untouched. -/
def extractorOk (f : Nat → DpiMsgLR → IndexedFieldPairs → Nat × IndexedFieldPairs)
    (attr : DpiMsgLR → Option String) (name : String) : Prop :=
  ∀ (nextField : Nat) (dpiMsg : DpiMsgLR) (ffd : IndexedFieldPairs),
    (∀ k ∈ keysOf ffd, k < nextField) →
      ((∀ v, attr dpiMsg = some v → v ≠ "" →
          f nextField dpiMsg ffd = (nextField + 1, ffd ++ [(nextField, (name, v))])) ∧
       (presentNonEmpty (attr dpiMsg) = false → f nextField dpiMsg ffd = (nextField, ffd)))

theorem applyExtractor_ok (fid : FieldId) :
    extractorOk (applyExtractor fid) (fieldAttr fid) (fieldName fid) := by
  intro nextField dpiMsg ffd hlt
  constructor
  · intro v hv hne
    simp only [applyExtractor, getFieldPair, hv]
    rw [if_neg (by simpa using hne), mapInsert_fresh ffd nextField _ hlt]
  · intro habs
    cases hv : fieldAttr fid dpiMsg with
    | none => simp [applyExtractor, getFieldPair, hv]
    | some v =>
      rw [hv] at habs
      simp only [presentNonEmpty, Bool.not_eq_false'] at habs
      simp [applyExtractor, getFieldPair, hv, habs]

/-! ### Claim theorems -/

/-- C1: every one of the twelve field extractors inserts exactly one
(field-name, field-value) pair at index `nextField` and returns
`nextField + 1` when the corresponding DPI-record attribute is present and
non-empty, and otherwise adds nothing — the collection is unchanged, never
an empty-valued pair — and returns `nextField` unchanged. -/
theorem singleFieldExtractor_contract :
    extractorOk GetLoginField DpiMsgLR.login "login" ∧
    extractorOk GetDomainField DpiMsgLR.domain "domain" ∧
    extractorOk GetUrlField DpiMsgLR.url "url" ∧
    extractorOk GetDestHostField DpiMsgLR.destHost "desthost" ∧
    extractorOk GetCommandField DpiMsgLR.command "command" ∧
    extractorOk GetSenderField DpiMsgLR.sender "sender" ∧
    extractorOk GetRecipientField DpiMsgLR.recipient "recipient" ∧
    extractorOk GetSubjectField DpiMsgLR.subject "subject" ∧
    extractorOk GetVersionField DpiMsgLR.version "version" ∧
    extractorOk GetSessionField DpiMsgLR.session "session" ∧
    extractorOk GetPathField DpiMsgLR.path "path" ∧
    extractorOk GetFilenameField DpiMsgLR.filename "filename" :=
  ⟨applyExtractor_ok .login, applyExtractor_ok .domain, applyExtractor_ok .url,
   applyExtractor_ok .destHost, applyExtractor_ok .command, applyExtractor_ok .sender,
   applyExtractor_ok .recipient, applyExtractor_ok .subject, applyExtractor_ok .version,
   applyExtractor_ok .session, applyExtractor_ok .path, applyExtractor_ok .filename⟩

/-- A record carrying only a login attribute, for concrete checks. -/
def msgLoginOnly : DpiMsgLR := { emptyMsg with login := some "alice" }

/-- Witness for C1: on a record whose only populated attribute is the login,
the login extractor appends exactly the login pair and bumps the index, and
the domain extractor changes nothing. -/
theorem singleFieldExtractor_contract_witness :
    GetLoginField 0 msgLoginOnly [] = (1, [(0, ("login", "alice"))]) ∧
    GetDomainField 0 msgLoginOnly [] = (0, []) := by
  constructor
  · exact (singleFieldExtractor_contract.1 0 msgLoginOnly []
      (by simp [keysOf])).1 "alice" rfl (by decide)
  · exact (singleFieldExtractor_contract.2.1 0 msgLoginOnly []
      (by simp [keysOf])).2 (by rfl)

/-- C7: on a record with both login and URL populated, running the login
extractor from index 0 and then the URL extractor yields exactly the
collection {0 ↦ login pair, 1 ↦ url pair}: the dynamic-field order is the
extractor invocation order, independent of the record's own layout. -/
theorem login_url_extraction_order (dpiMsg : DpiMsgLR) (lv uv : String)
    (h1 : dpiMsg.login = some lv) (h2 : lv ≠ "")
    (h3 : dpiMsg.url = some uv) (h4 : uv ≠ "") :
    GetUrlField (GetLoginField 0 dpiMsg []).1 dpiMsg (GetLoginField 0 dpiMsg []).2
      = (2, [(0, ("login", lv)), (1, ("url", uv))]) := by
  have e1 : GetLoginField 0 dpiMsg [] = (1, [(0, ("login", lv))]) :=
    (applyExtractor_ok .login 0 dpiMsg [] (by simp [keysOf])).1 lv h1 h2
  rw [e1]
  exact (applyExtractor_ok .url 1 dpiMsg [(0, ("login", lv))]
    (by simp [keysOf])).1 uv h3 h4

/-- A record carrying a login and a URL, for concrete checks. -/
def msgLoginUrl : DpiMsgLR :=
  { emptyMsg with login := some "alice", url := some "http://x" }

/-- Witness for C7 at a concrete record. -/
theorem login_url_extraction_order_witness :
    GetUrlField (GetLoginField 0 msgLoginUrl []).1 msgLoginUrl
        (GetLoginField 0 msgLoginUrl []).2
      = (2, [(0, ("login", "alice")), (1, ("url", "http://x"))]) :=
  login_url_extraction_order msgLoginUrl "alice" "http://x"
    rfl (by decide) rfl (by decide)

/-- C3: the full message builder fails and appends nothing whenever
`dynamicStart` exceeds the number of stored pairs, and succeeds exactly when
`dynamicStart` is within the collection's extent. -/
theorem getSyslogMessages_overflow_failure (ffd : IndexedFieldPairs)
    (messages : List String) (dynamicStart maxSize : Nat) :
    (ffd.length < dynamicStart →
       GetSyslogMessages ffd messages dynamicStart maxSize = (false, messages)) ∧
    ((GetSyslogMessages ffd messages dynamicStart maxSize).1 = true ↔
       dynamicStart ≤ ffd.length) := by
  constructor
  · intro h
    simp [GetSyslogMessages, h]
  · simp only [GetSyslogMessages]
    split
    · next h => simp; omega
    · next h => simp; omega

/-- Witness for C3: `dynamicStart = 1` on an empty collection fails and
leaves the output sequence alone. -/
theorem getSyslogMessages_overflow_failure_witness :
    GetSyslogMessages [] ["prior"] 1 10 = (false, ["prior"]) :=
  (getSyslogMessages_overflow_failure [] ["prior"] 1 10).1 (by decide)

/-- C8: the full message builder is deterministic and idempotent — a second
call with the same collection and the same `dynamicStart` returns the same
success flag and appends exactly the same message block again. -/
theorem getSyslogMessages_idempotent (ffd : IndexedFieldPairs)
    (messages : List String) (dynamicStart maxSize : Nat) :
    (GetSyslogMessages ffd (GetSyslogMessages ffd messages dynamicStart maxSize).2
        dynamicStart maxSize).1
      = (GetSyslogMessages ffd messages dynamicStart maxSize).1 ∧
    (GetSyslogMessages ffd (GetSyslogMessages ffd messages dynamicStart maxSize).2
        dynamicStart maxSize).2
      = (GetSyslogMessages ffd messages dynamicStart maxSize).2 ++
        ((GetSyslogMessages ffd messages dynamicStart maxSize).2.drop messages.length) := by
  simp only [GetSyslogMessages]
  split
  · simp [List.drop_length]
  · simp [List.drop_left]

/-- C9: `SetMaxSize` writes exactly the assembler's maximum-size member and
leaves every other configuration member — hence every configuration
accessor's value — unchanged; the accessors themselves are pure functions of
the engine state. -/
theorem setMaxSize_sole_mutator (e : MockRuleEngine) (max : Nat) :
    (SetMaxSize e max).mMaxSyslogMsgSize = max ∧
    SiemModeEnabled (SetMaxSize e max) = SiemModeEnabled e ∧
    SiemDebugModeEnabled (SetMaxSize e max) = SiemDebugModeEnabled e ∧
    SyslogEnabled (SetMaxSize e max) = SyslogEnabled e ∧
    MaxLineLength (SetMaxSize e max) = MaxLineLength e ∧
    GetScriptsDir (SetMaxSize e max) = GetScriptsDir e ∧
    GetStatsAccQueue (SetMaxSize e max) = GetStatsAccQueue e ∧
    GetDpiRcvrQueue (SetMaxSize e max) = GetDpiRcvrQueue e ∧
    GetDpiMsgQueueSize (SetMaxSize e max) = GetDpiMsgQueueSize e :=
  ⟨rfl, rfl, rfl, rfl, rfl, rfl, rfl, rfl, rfl⟩

/-- C10: immediately after construction, whatever the constructor arguments,
the configuration accessors return the fixed defaults from the initializer
list of MockRuleEngine.h. -/
theorem constructor_defaults (args : CtorArgs) (baseMaxSyslogMsgSize : Nat) :
    SiemModeEnabled (mkMockRuleEngine args baseMaxSyslogMsgSize) = false ∧
    SiemDebugModeEnabled (mkMockRuleEngine args baseMaxSyslogMsgSize) = false ∧
    SyslogEnabled (mkMockRuleEngine args baseMaxSyslogMsgSize) = true ∧
    MaxLineLength (mkMockRuleEngine args baseMaxSyslogMsgSize) = 2048 ∧
    GetScriptsDir (mkMockRuleEngine args baseMaxSyslogMsgSize) = "../scripts" ∧
    GetStatsAccQueue (mkMockRuleEngine args baseMaxSyslogMsgSize)
      = "ipc:///tmp/statsAccumulatorQ.ipc" ∧
    GetDpiRcvrQueue (mkMockRuleEngine args baseMaxSyslogMsgSize)
      = "ipc:///tmp/dpilrmsgtest.ipc" ∧
    GetDpiMsgQueueSize (mkMockRuleEngine args baseMaxSyslogMsgSize) = 1000 :=
  ⟨rfl, rfl, rfl, rfl, rfl, rfl, rfl, rfl⟩

/-- C4: `dynamicStart` equal to the stored pair count succeeds and produces
exactly one message that is only the static prefix, provided the collection
is indexed contiguously from 0 as extraction builds it. -/
theorem getSyslogMessages_boundary_static_only (ffd : IndexedFieldPairs)
    (messages : List String) (maxSize : Nat)
    (h : keysOf ffd = List.range ffd.length) :
    GetSyslogMessages ffd messages ffd.length maxSize
      = (true, messages ++ [GetStaticInfo ffd ffd.length]) := by
  have hdyn : dynamicTexts ffd ffd.length = [] := by
    unfold dynamicTexts
    rw [List.filter_eq_nil_iff.2 ?_]
    · rfl
    · intro p hp
      have hmem : p.1 ∈ keysOf ffd := List.mem_map_of_mem Prod.fst hp
      rw [h] at hmem
      have := List.mem_range.1 hmem
      simp only [decide_eq_true_eq]
      omega
  simp [GetSyslogMessages, hdyn, appendPairs]

/-- Witness for C4 on a one-pair collection. -/
theorem getSyslogMessages_boundary_static_only_witness :
    GetSyslogMessages [(0, ("a", "b"))] [] 1 7 = (true, ["a=b "]) :=
  getSyslogMessages_boundary_static_only [(0, ("a", "b"))] [] 7 (by decide)

/-! ### Extraction-pass index lemmas -/

/-- A pass step either leaves index and collection alone or writes one pair
at the current index and bumps it; both `applyExtractor` and
`applyIfAbsent` have this shape. -/
def stepAddsAtMostOne
    (step : FieldId → Nat → DpiMsgLR → IndexedFieldPairs → Nat × IndexedFieldPairs)
    (dpiMsg : DpiMsgLR) : Prop :=
  ∀ (fid : FieldId) (n : Nat) (ffd : IndexedFieldPairs),
    step fid n dpiMsg ffd = (n, ffd) ∨
    ∃ v, step fid n dpiMsg ffd = (n + 1, mapInsert ffd n v)

theorem applyExtractor_step (dpiMsg : DpiMsgLR) :
    stepAddsAtMostOne applyExtractor dpiMsg := by
  intro fid n ffd
  cases hv : fieldAttr fid dpiMsg with
  | none => exact Or.inl (by simp [applyExtractor, getFieldPair, hv])
  | some v =>
    by_cases he : v = ""
    · exact Or.inl (by simp [applyExtractor, getFieldPair, hv, he])
    · exact Or.inr ⟨(fieldName fid, v), by simp [applyExtractor, getFieldPair, hv, he]⟩

theorem applyIfAbsent_step (dpiMsg : DpiMsgLR) :
    stepAddsAtMostOne applyIfAbsent dpiMsg := by
  intro fid n ffd
  by_cases hp : hasFieldNamed ffd (fieldName fid)
  · exact Or.inl (by simp [applyIfAbsent, hp])
  · have := applyExtractor_step dpiMsg fid n ffd
    simpa [applyIfAbsent, hp] using this

theorem keysOf_append (l₁ l₂ : IndexedFieldPairs) :
    keysOf (l₁ ++ l₂) = keysOf l₁ ++ keysOf l₂ := by
  simp [keysOf]

/-- A pass built from at-most-one-pair steps starts from the caller's index
and extends the key list by exactly the contiguous block from that index to
the returned one. -/
theorem runPass_keys
    (step : FieldId → Nat → DpiMsgLR → IndexedFieldPairs → Nat × IndexedFieldPairs)
    (dpiMsg : DpiMsgLR) (hstep : stepAddsAtMostOne step dpiMsg) :
    ∀ (fids : List FieldId) (n : Nat) (ffd : IndexedFieldPairs),
      (∀ k ∈ keysOf ffd, k < n) →
      n ≤ (runPass step fids n dpiMsg ffd).1 ∧
      keysOf (runPass step fids n dpiMsg ffd).2
        = keysOf ffd ++ List.range' n ((runPass step fids n dpiMsg ffd).1 - n) := by
  intro fids
  induction fids with
  | nil => intro n ffd _; simp [runPass]
  | cons fid rest ih =>
    intro n ffd h
    rcases hstep fid n ffd with hs | ⟨v, hs⟩
    · simpa only [runPass, hs] using ih n ffd h
    · simp only [runPass, hs]
      have hfresh := mapInsert_fresh ffd n v h
      have h' : ∀ k ∈ keysOf (mapInsert ffd n v), k < n + 1 := by
        rw [hfresh, keysOf_append]
        intro k hk
        rcases List.mem_append.1 hk with hk | hk
        · exact Nat.lt_succ_of_lt (h k hk)
        · simp [keysOf] at hk
          omega
      obtain ⟨hle, hkeys⟩ := ih (n + 1) (mapInsert ffd n v) h'
      rw [hfresh] at hle hkeys ⊢
      refine ⟨by omega, ?_⟩
      rw [hkeys, keysOf_append, List.append_assoc]
      congr 1
      have harith :
          (runPass step rest (n + 1) dpiMsg (ffd ++ [(n, v)])).1 - n
            = ((runPass step rest (n + 1) dpiMsg (ffd ++ [(n, v)])).1 - (n + 1)) + 1 := by
        omega
      rw [harith, List.range'_succ]
      simp [keysOf]

/-- Key lists that extend a below-`n` sorted list by a block starting at `n`
stay strictly sorted, so no index maps to two pairs. -/
theorem keys_sorted_extend (ks : List Nat) (n k : Nat)
    (hsort : ks.Pairwise (· < ·)) (hlt : ∀ a ∈ ks, a < n) :
    (ks ++ List.range' n k).Pairwise (· < ·) := by
  rw [List.pairwise_append]
  refine ⟨hsort, List.pairwise_lt_range' n k 1 (by omega), ?_⟩
  intro a ha b hb
  have hb' := (List.mem_range'_1.1 hb).1
  have := hlt a ha
  omega

/-- Indexing contract of an extraction pass launched at index `n`: the pass
only moves the index forward, the keys it adds are exactly the contiguous
block from `n` to the returned index, and strict key ordering (each index
mapped to at most one pair) is preserved. -/
def passPreservesIndexing
    (runF : Nat → IndexedFieldPairs → Nat × IndexedFieldPairs) : Prop :=
  ∀ (n : Nat) (ffd : IndexedFieldPairs), (∀ k ∈ keysOf ffd, k < n) →
    n ≤ (runF n ffd).1 ∧
    keysOf (runF n ffd).2 = keysOf ffd ++ List.range' n ((runF n ffd).1 - n) ∧
    ((keysOf ffd).Pairwise (· < ·) → (keysOf (runF n ffd).2).Pairwise (· < ·))

theorem runPass_preserves
    (step : FieldId → Nat → DpiMsgLR → IndexedFieldPairs → Nat × IndexedFieldPairs)
    (dpiMsg : DpiMsgLR) (hstep : stepAddsAtMostOne step dpiMsg)
    (fids : List FieldId) :
    passPreservesIndexing (fun n ffd => runPass step fids n dpiMsg ffd) := by
  intro n ffd h
  obtain ⟨hle, hkeys⟩ := runPass_keys step dpiMsg hstep fids n ffd h
  refine ⟨hle, hkeys, ?_⟩
  intro hsort
  rw [hkeys]
  exact keys_sorted_extend _ n _ hsort h

/-- C6: every extraction pass — each single-field extractor, the
application-specific pass, and the SIEM-required pass (whose origin is fixed
at 0 on a fresh collection) — assigns indices strictly in extraction order
from the caller-chosen origin, adds exactly the gap-free contiguous index
block it reports, and never maps one index to two pairs. -/
theorem extraction_pass_index_invariant (dpiMsg : DpiMsgLR) :
    (∀ fid : FieldId,
      passPreservesIndexing (fun n ffd => applyExtractor fid n dpiMsg ffd)) ∧
    passPreservesIndexing
      (fun n ffd => GetApplicationSpecificFieldPairs n dpiMsg ffd) ∧
    (∀ ffd : IndexedFieldPairs, ffd = [] →
      keysOf (GetSiemRequiredFieldPairs dpiMsg ffd).2
        = List.range' 0 (GetSiemRequiredFieldPairs dpiMsg ffd).1 ∧
      (keysOf (GetSiemRequiredFieldPairs dpiMsg ffd).2).Pairwise (· < ·)) := by
  refine ⟨?_, ?_, ?_⟩
  · intro fid
    have he : (fun n ffd => applyExtractor fid n dpiMsg ffd)
        = (fun n ffd => runPass applyExtractor [fid] n dpiMsg ffd) := by
      funext n ffd
      simp [runPass]
    rw [he]
    exact runPass_preserves applyExtractor dpiMsg (applyExtractor_step dpiMsg) [fid]
  · exact runPass_preserves applyIfAbsent dpiMsg (applyIfAbsent_step dpiMsg) appFieldOrder
  · rintro ffd rfl
    obtain ⟨-, hkeys, hsort⟩ :=
      runPass_preserves applyExtractor dpiMsg (applyExtractor_step dpiMsg)
        siemRequiredOrder 0 [] (by simp [keysOf])
    refine ⟨?_, hsort (by simp [keysOf])⟩
    simpa [keysOf] using hkeys

/-- Witness for C6: the application-specific pass on a login+url record,
started at origin 0 on an empty collection, reports exactly the contiguous
key block it created. -/
theorem extraction_pass_index_invariant_witness :
    keysOf (GetApplicationSpecificFieldPairs 0 msgLoginUrl []).2
      = keysOf ([] : IndexedFieldPairs)
        ++ List.range' 0 ((GetApplicationSpecificFieldPairs 0 msgLoginUrl []).1 - 0) :=
  ((extraction_pass_index_invariant msgLoginUrl).2.1 0 [] (by simp [keysOf])).2.1

/-! ### Assembler shape lemmas -/

theorem appendPairs_len_pos (s : String) (maxSize : Nat) :
    ∀ (pairs : List String) (cur : String) (flag : Bool),
      1 ≤ (appendPairs s maxSize pairs cur flag).length := by
  intro pairs
  induction pairs with
  | nil => intro cur flag; simp [appendPairs]
  | cons p rest ih =>
    intro cur flag
    simp only [appendPairs]
    split
    · simp only [List.length_cons]
      omega
    · exact ih _ _

theorem appendPairs_static_start (s : String) (maxSize : Nat) :
    ∀ (pairs : List String) (cur : String) (flag : Bool),
      (∃ t, cur = s ++ t) →
      ∀ m ∈ appendPairs s maxSize pairs cur flag, ∃ t, m = s ++ t := by
  intro pairs
  induction pairs with
  | nil =>
    intro cur flag hcur m hm
    simp only [appendPairs, List.mem_singleton] at hm
    exact hm ▸ hcur
  | cons p rest ih =>
    intro cur flag hcur m hm
    simp only [appendPairs] at hm
    split at hm
    · rcases List.mem_cons.1 hm with rfl | hm'
      · exact hcur
      · exact ih _ _ ⟨p, rfl⟩ m hm'
    · obtain ⟨t, rfl⟩ := hcur
      exact ih _ _ ⟨t ++ p, by rw [String.append_assoc]⟩ m hm

/-- The SIEM-required phase of the SIEM pipeline, run on a fresh collection. -/
def siemPhase (dpiMsg : DpiMsgLR) : Nat × IndexedFieldPairs :=
  GetSiemRequiredFieldPairs dpiMsg []

/-- The collection after both phases of the SIEM pipeline. -/
def siemCollection (dpiMsg : DpiMsgLR) : Nat × IndexedFieldPairs :=
  GetApplicationSpecificFieldPairs (siemPhase dpiMsg).1 dpiMsg (siemPhase dpiMsg).2

/-- C5: the SIEM pipeline runs SIEM-required extraction first, then
application-specific extraction for fields not already present, uses the
phase boundary as `dynamicStart`, invokes the full message builder — whose
inner result is always success — and returns its message sequence, which is
never empty and whose every element starts with the static header. -/
theorem getSiemSyslogMessage_pipeline (dpiMsg : DpiMsgLR) (maxSize : Nat) :
    GetSiemSyslogMessage dpiMsg maxSize
      = (GetSyslogMessages (siemCollection dpiMsg).2 [] (siemPhase dpiMsg).1 maxSize).2 ∧
    (GetSyslogMessages (siemCollection dpiMsg).2 [] (siemPhase dpiMsg).1 maxSize).1
      = true ∧
    1 ≤ (GetSiemSyslogMessage dpiMsg maxSize).length ∧
    ∀ m ∈ GetSiemSyslogMessage dpiMsg maxSize,
      ∃ t, m = GetStaticInfo (siemCollection dpiMsg).2 (siemPhase dpiMsg).1 ++ t := by
  obtain ⟨-, hkeys_siem⟩ :=
    runPass_keys applyExtractor dpiMsg (applyExtractor_step dpiMsg)
      siemRequiredOrder 0 [] (by simp [keysOf])
  have hkeys_siem' : keysOf (siemPhase dpiMsg).2
      = List.range' 0 (siemPhase dpiMsg).1 := by
    simpa [keysOf, siemPhase, GetSiemRequiredFieldPairs] using hkeys_siem
  have hlen_siem : (siemPhase dpiMsg).2.length = (siemPhase dpiMsg).1 := by
    have := congrArg List.length hkeys_siem'
    simpa [keysOf] using this
  have hbelow : ∀ k ∈ keysOf (siemPhase dpiMsg).2, k < (siemPhase dpiMsg).1 := by
    rw [hkeys_siem']
    intro k hk
    have := List.mem_range'_1.1 hk
    omega
  obtain ⟨-, hkeys_app⟩ :=
    runPass_keys applyIfAbsent dpiMsg (applyIfAbsent_step dpiMsg)
      appFieldOrder (siemPhase dpiMsg).1 (siemPhase dpiMsg).2 hbelow
  have hkeys_app' : keysOf (siemCollection dpiMsg).2
      = keysOf (siemPhase dpiMsg).2 ++
        List.range' (siemPhase dpiMsg).1
          ((siemCollection dpiMsg).1 - (siemPhase dpiMsg).1) := by
    simpa [siemCollection, GetApplicationSpecificFieldPairs] using hkeys_app
  have hlen_app : (siemPhase dpiMsg).1 ≤ (siemCollection dpiMsg).2.length := by
    have := congrArg List.length hkeys_app'
    simp [keysOf] at this
    omega
  have hnotlt : ¬ ((siemCollection dpiMsg).2.length < (siemPhase dpiMsg).1) := by
    omega
  have hout : (GetSyslogMessages (siemCollection dpiMsg).2 []
      (siemPhase dpiMsg).1 maxSize).2
      = appendPairs (GetStaticInfo (siemCollection dpiMsg).2 (siemPhase dpiMsg).1)
          maxSize (dynamicTexts (siemCollection dpiMsg).2 (siemPhase dpiMsg).1)
          (GetStaticInfo (siemCollection dpiMsg).2 (siemPhase dpiMsg).1) false := by
    unfold GetSyslogMessages
    rw [if_neg hnotlt]
    simp
  have heq : GetSiemSyslogMessage dpiMsg maxSize
      = (GetSyslogMessages (siemCollection dpiMsg).2 []
          (siemPhase dpiMsg).1 maxSize).2 := rfl
  refine ⟨heq, ?_, ?_, ?_⟩
  · unfold GetSyslogMessages
    rw [if_neg hnotlt]
  · rw [heq, hout]
    exact appendPairs_len_pos _ _ _ _ _
  · intro m hm
    rw [heq, hout] at hm
    exact appendPairs_static_start _ _ _ _ _
      ⟨"", (String.append_empty _).symm⟩ m hm

/-- Witness for C5 on a login+url record: the SIEM pipeline emits at least
one message and its first message starts with the static header. -/
theorem getSiemSyslogMessage_pipeline_witness :
    1 ≤ (GetSiemSyslogMessage msgLoginUrl 100).length ∧
    (∃ t, (GetSiemSyslogMessage msgLoginUrl 100).head!
      = GetStaticInfo (siemCollection msgLoginUrl).2 (siemPhase msgLoginUrl).1 ++ t) := by
  refine ⟨(getSiemSyslogMessage_pipeline msgLoginUrl 100).2.2.1, ?_⟩
  exact (getSiemSyslogMessage_pipeline msgLoginUrl 100).2.2.2 _ (by decide)

/-! ### Length-invariant lemmas for the assembler loop -/

theorem strConcat_cons (p : String) (l : List String) :
    strConcat (p :: l) = p ++ strConcat l := rfl

/-- Every run of the assembler loop groups the dynamic texts, in order and
without splitting any of them, into the produced messages. -/
theorem appendPairs_partition (s : String) (maxSize : Nat) :
    ∀ (pairs : List String) (cur : String) (flag : Bool),
      ∃ (g : List String) (gs : List (List String)),
        (g :: gs).flatten = pairs ∧
        appendPairs s maxSize pairs cur flag
          = (cur ++ strConcat g) :: gs.map (fun h => s ++ strConcat h) := by
  intro pairs
  induction pairs with
  | nil =>
    intro cur flag
    exact ⟨[], [], by simp, by simp [appendPairs, strConcat, String.append_empty]⟩
  | cons p rest ih =>
    intro cur flag
    by_cases hc : (flag && decide (maxSize < cur.length + p.length)) = true
    · obtain ⟨g', gs', hj, he⟩ := ih (s ++ p) true
      refine ⟨[], (p :: g') :: gs', ?_, ?_⟩
      · simp only [List.flatten_cons] at hj ⊢
        simp [← hj]
      · simp only [appendPairs, if_pos hc, he, strConcat_cons]
        simp [strConcat, String.append_empty, String.append_assoc]
    · obtain ⟨g', gs', hj, he⟩ := ih (cur ++ p) true
      refine ⟨p :: g', gs', ?_, ?_⟩
      · simp only [List.flatten_cons] at hj ⊢
        simp [← hj]
      · simp only [appendPairs, if_neg hc, he, strConcat_cons]
        rw [String.append_assoc]

/-- Every message the assembler loop emits either fits the size budget or is
the static prefix extended by exactly one dynamic text (or the bare static
prefix when no dynamic text exists). -/
theorem appendPairs_bound (s : String) (maxSize : Nat) (allTexts : List String) :
    ∀ (pairs : List String) (cur : String) (flag : Bool),
      (∀ p ∈ pairs, p ∈ allTexts) →
      (cur.length ≤ maxSize ∨ (∃ p ∈ allTexts, cur = s ++ p) ∨ cur = s) →
      (flag = false → cur = s) →
      ∀ m ∈ appendPairs s maxSize pairs cur flag,
        m.length ≤ maxSize ∨ (∃ p ∈ allTexts, m = s ++ p) ∨ m = s := by
  intro pairs
  induction pairs with
  | nil =>
    intro cur flag _ hcur _ m hm
    simp only [appendPairs, List.mem_singleton] at hm
    exact hm ▸ hcur
  | cons p rest ih =>
    intro cur flag hsub hcur hflag m hm
    have hsub' : ∀ q ∈ rest, q ∈ allTexts := fun q hq => hsub q (List.mem_cons_of_mem p hq)
    have hp : p ∈ allTexts := hsub p (List.mem_cons_self p rest)
    simp only [appendPairs] at hm
    split at hm
    · rcases List.mem_cons.1 hm with rfl | hm'
      · exact hcur
      · exact ih _ _ hsub' (Or.inr (Or.inl ⟨p, hp, rfl⟩)) (by simp) m hm'
    · next hc =>
      have hcur' : (cur ++ p).length ≤ maxSize ∨
          (∃ q ∈ allTexts, cur ++ p = s ++ q) ∨ cur ++ p = s := by
        rcases Bool.and_eq_true_iff.not.1 hc |> not_and_or.1 with hf | hlen
        · have : cur = s := hflag (by revert hf; cases flag <;> simp)
          exact Or.inr (Or.inl ⟨p, hp, by rw [this]⟩)
        · left
          rw [String.length_append]
          have : ¬ (maxSize < cur.length + p.length) := by
            revert hlen
            simp
          omega
      exact ih _ _ hsub' hcur' (by simp) m hm

/-- Whenever at least one dynamic text follows an already-started message and
the full rendering overflows the budget, the loop closes at least twice. -/
theorem appendPairs_count (s : String) (maxSize : Nat) :
    ∀ (pairs : List String) (cur : String),
      1 ≤ pairs.length →
      maxSize < (cur ++ strConcat pairs).length →
      2 ≤ (appendPairs s maxSize pairs cur true).length := by
  intro pairs
  induction pairs with
  | nil =>
    intro cur h _
    simp at h
  | cons p rest ih =>
    intro cur _ hover
    by_cases hc : (true && decide (maxSize < cur.length + p.length)) = true
    · simp only [appendPairs, if_pos hc, List.length_cons]
      have := appendPairs_len_pos s maxSize rest (s ++ p) true
      omega
    · cases rest with
      | nil =>
        exfalso
        simp only [strConcat_cons, strConcat, String.append_empty] at hover
        rw [String.length_append] at hover
        simp at hc
        omega
      | cons q rest' =>
        simp only [appendPairs, if_neg hc]
        refine ih (cur ++ p) (by simp) ?_
        simp only [strConcat_cons] at hover ⊢
        rw [String.append_assoc]
        exact hover

/-- The per-instance statement of the message-length claim exactly as the
spec words it: an overflowing full rendering forces at least two messages,
each within the budget except one whose single dynamic pair alone exceeds
the budget and which then exceeds it by exactly that pair's excess. -/
def lengthClaimAt (ffd : IndexedFieldPairs) (dynamicStart maxSize : Nat) : Prop :=
  maxSize < (GetStaticInfo ffd dynamicStart
      ++ strConcat (dynamicTexts ffd dynamicStart)).length →
    2 ≤ (GetSyslogMessages ffd [] dynamicStart maxSize).2.length ∧
    ∀ m ∈ (GetSyslogMessages ffd [] dynamicStart maxSize).2,
      m.length ≤ maxSize ∨
      (∃ p ∈ dynamicTexts ffd dynamicStart, maxSize < p.length ∧ m.length = p.length)

/-- A collection whose single dynamic pair overflows the budget together
with the static prefix. -/
def ffdOneBigPair : IndexedFieldPairs := [(0, ("h", "HEADER")), (1, ("k", "vvvvv"))]

/-- Counterexample to C2 as stated: at `dynamicStart = 1` and budget 12 the
full rendering (length 17) overflows, yet the assembler emits exactly one
message — the static prefix plus the lone dynamic pair, emitted whole — so
neither the two-message count nor the pair-alone-exceeds exception holds. -/
theorem lengthClaim_counterexample : ¬ lengthClaimAt ffdOneBigPair 1 12 := by
  intro hclaim
  have h2 := hclaim (by decide)
  have hlen : (GetSyslogMessages ffdOneBigPair [] 1 12).2.length = 1 := by decide
  omega

/-- C2 as amended: assuming a consistent `dynamicStart`, whenever the full
rendering overflows the budget and at least two dynamic pairs exist, the
builder appends at least two messages; every appended message either fits
the budget or is the static prefix extended by exactly one dynamic pair
emitted whole (or the bare prefix); and the appended messages partition the
dynamic pair texts in order, so no pair is truncated or split and every
message starts with the same static prefix. -/
theorem getSyslogMessages_length_invariant (ffd : IndexedFieldPairs)
    (messages : List String) (dynamicStart maxSize : Nat)
    (h : dynamicStart ≤ ffd.length) :
    (2 ≤ (dynamicTexts ffd dynamicStart).length →
      maxSize < (GetStaticInfo ffd dynamicStart
          ++ strConcat (dynamicTexts ffd dynamicStart)).length →
      2 ≤ ((GetSyslogMessages ffd messages dynamicStart maxSize).2.drop
            messages.length).length) ∧
    (∀ m ∈ (GetSyslogMessages ffd messages dynamicStart maxSize).2.drop
        messages.length,
      m.length ≤ maxSize ∨
      (∃ p ∈ dynamicTexts ffd dynamicStart, m = GetStaticInfo ffd dynamicStart ++ p) ∨
      m = GetStaticInfo ffd dynamicStart) ∧
    (∃ gs : List (List String),
      gs.flatten = dynamicTexts ffd dynamicStart ∧
      (GetSyslogMessages ffd messages dynamicStart maxSize).2.drop messages.length
        = gs.map (fun g => GetStaticInfo ffd dynamicStart ++ strConcat g)) := by
  have hout : (GetSyslogMessages ffd messages dynamicStart maxSize).2.drop
      messages.length
      = appendPairs (GetStaticInfo ffd dynamicStart) maxSize
          (dynamicTexts ffd dynamicStart) (GetStaticInfo ffd dynamicStart) false := by
    unfold GetSyslogMessages
    rw [if_neg (by omega)]
    simp [List.drop_left]
  refine ⟨?_, ?_, ?_⟩
  · intro htwo hover
    rw [hout]
    cases hd : dynamicTexts ffd dynamicStart with
    | nil => rw [hd] at htwo; simp at htwo
    | cons p rest =>
      have hstep : appendPairs (GetStaticInfo ffd dynamicStart) maxSize (p :: rest)
          (GetStaticInfo ffd dynamicStart) false
          = appendPairs (GetStaticInfo ffd dynamicStart) maxSize rest
              (GetStaticInfo ffd dynamicStart ++ p) true := by
        simp [appendPairs]
      rw [hstep]
      refine appendPairs_count _ _ rest _ ?_ ?_
      · rw [hd] at htwo
        simp at htwo
        omega
      · rw [hd] at hover
        simp only [strConcat_cons] at hover
        rw [String.append_assoc]
        exact hover
  · intro m hm
    rw [hout] at hm
    exact appendPairs_bound _ _ (dynamicTexts ffd dynamicStart) _ _ _
      (fun p hp => hp) (Or.inr (Or.inr rfl)) (fun _ => rfl) m hm
  · obtain ⟨g, gs, hj, he⟩ :=
      appendPairs_partition (GetStaticInfo ffd dynamicStart) maxSize
        (dynamicTexts ffd dynamicStart) (GetStaticInfo ffd dynamicStart) false
    exact ⟨g :: gs, hj, by rw [hout, he]; simp⟩

/-- A three-pair collection whose rendering overflows a 12-byte budget. -/
def ffdThreePairs : IndexedFieldPairs :=
  [(0, ("a", "111")), (1, ("b", "222")), (2, ("c", "333"))]

/-- Witness for the amended C2: with two dynamic pairs and budget 12 the
builder appends at least two messages. -/
theorem getSyslogMessages_length_invariant_witness :
    2 ≤ ((GetSyslogMessages ffdThreePairs [] 1 12).2.drop
          ([] : List String).length).length :=
  (getSyslogMessages_length_invariant ffdThreePairs [] 1 12 (by decide)).1
    (by decide) (by decide)

end NetworkMonitor
